import Mathlib

/-!
Verification of the AGS-Processor core against its specification.

The Python source is shallowly embedded: association lists model Python
dicts (insertion-ordered, update-in-place), `List String` models a lexed
CSV line, `ℚ` models numeric cell values (`Option ℚ` where a value may be
NaN / non-numeric), and `Except String` models raised exceptions.
-/

namespace AGSProc

/-- Update key `k` in an insertion-ordered association list, keeping its
position if present, appending at the end otherwise (Python dict
assignment `m[k] = v`). -/
def setA {α : Type} : List (String × α) → String → α → List (String × α)
  | [], k, v => [(k, v)]
  | (k2, v2) :: rest, k, v =>
    if k2 = k then (k, v) :: rest else (k2, v2) :: setA rest k v

/-- Python `dict.setdefault(k, v)`: insert `(k, v)` at the end only when
`k` is absent. -/
def setdefaultA {α : Type} (m : List (String × α)) (k : String) (v : α) :
    List (String × α) :=
  match m.lookup k with
  | some _ => m
  | none => m ++ [(k, v)]

/-- Python `l[-1] += s` on a list of strings; the empty case is
unreachable at the call sites (they guard on non-emptiness). -/
def addToLast : List String → String → List String
  | [], _ => []
  | [x], s => [x ++ s]
  | x :: y :: rest, s => x :: addToLast (y :: rest) s

/-- Whether an `Except` result is a raised exception. -/
def isErr {α : Type} : Except String α → Bool
  | .error _ => true
  | .ok _ => false

/-- Decimal digits of `n`, most significant first, prepended to `acc`
(the rendering used by Python f-strings such as `f"{idx+1}"`). -/
def decDigitsAux (n : Nat) (acc : List Char) : List Char :=
  if h : n < 10 then Nat.digitChar n :: acc
  else decDigitsAux (n / 10) (Nat.digitChar (n % 10) :: acc)
termination_by n
decreasing_by exact Nat.div_lt_self (by omega) (by omega)

/-- Decimal rendering of a natural number (Python `str(n)`). -/
def natStr (n : Nat) : String := ⟨decDigitsAux n []⟩

/-- Numeric value read back from a digit string (left fold, base 10). -/
def digitsVal (l : List Char) : Nat :=
  l.foldl (fun a c => 10 * a + (c.toNat - 48)) 0

/-! ## Group parser (`ags_core.AGS4_to_dict`)

The input is the list of already-lexed CSV lines (each a list of field
strings, as produced by Python's `csv.reader`).  A group's data is an
ordered map from heading to the column's list of cell values. -/

/-- One group's column store: heading name to list of cell values. -/
abbrev GroupData := List (String × List String)

/-- All parsed groups, in declaration order (`data` in the source). -/
abbrev ParsedData := List (String × GroupData)

/-- The per-group heading lists (`headings` in the source). -/
abbrev Headings := List (String × List String)

/-- Parser state threaded through the line loop of `AGS4_to_dict`. -/
structure PState where
  data : ParsedData
  headings : Headings
  group : Option String
  row : Nat

/-- The initial parser state. -/
def initPState : PState := ⟨[], [], none, 0⟩

/-- Python `s[n:]` (character-based slicing). -/
def strDrop (s : String) (n : Nat) : String := ⟨s.data.drop n⟩

/-- Python `s.startswith(pre)` (character-based prefix test). -/
def strStarts (s : String) (pre : List Char) : Bool := pre.isPrefixOf s.data

/-- The branch a lexed line is dispatched to, in the source's test order:
`**` group, `*` heading, `<CONT>`, single-empty-field blank, else data. -/
inductive LineKind | group | heading | cont | blank | data
deriving DecidableEq

/-- Line classification mirroring the `if`/`elif` chain of
`AGS4_to_dict` (an empty lexed line is skipped before this runs). -/
def classify (first : String) (rest : List String) : LineKind :=
  if strStarts first ['*', '*'] then .group
  else if strStarts first ['*'] then .heading
  else if first = "<CONT>" then .cont
  else if first = "" ∧ rest = [] then .blank
  else .data

/-- The heading-deduplication pass: a running count per name renames the
`k`-th repeat of `item` to `item_k` (source lines 109-114).  The counts
are keyed by the names currently in the list, so a name produced by an
earlier pass can be counted again. -/
def dedupGo (seen : List (String × Nat)) : List String → List String
  | [] => []
  | item :: rest =>
    let c := match seen.lookup item with
      | some v => v + 1
      | none => 0
    let item2 := if c ≠ 0 then item ++ "_" ++ natStr c else item
    item2 :: dedupGo (setA seen item c) rest

/-- Deduplicate headings by suffixing repeats with `_1`, `_2`, ... -/
def dedupPass (l : List String) : List String := dedupGo [] l

/-- The `<CONT>` loop (source lines 123-129): value `j` of the line is
concatenated onto the last cell of the column at heading position `j`.
`hsO` is the lazy `headings[group]` lookup (a Python `KeyError` only
fires once the loop body runs). -/
def contLoop (hsO : Option (List String)) (gd : GroupData) :
    List String → Nat → Except String GroupData
  | [], _ => .ok gd
  | v :: vs, j =>
    match hsO with
    | none => .error "KeyError: headings"
    | some hs =>
      if hj : j < hs.length then
        match gd.lookup (hs.get ⟨j, hj⟩) with
        | none => .error "KeyError: data column"
        | some [] => .error "No previous row for continuation"
        | some cells =>
          contLoop hsO (setA gd (hs.get ⟨j, hj⟩) (addToLast cells v)) vs (j + 1)
      else .error "Continuation column index exceeds headings"

/-- The data-row loop (source lines 140-142): value `j` is appended to
the column at heading position `j`; a row longer than the headings hits
a Python `IndexError`, a missing column a `KeyError`. -/
def dataLoop (hs : List String) (gd : GroupData) :
    List String → Nat → Except String GroupData
  | [], _ => .ok gd
  | v :: vs, j =>
    if hj : j < hs.length then
      match gd.lookup (hs.get ⟨j, hj⟩) with
      | none => .error "KeyError: data column"
      | some cells =>
        dataLoop hs (setA gd (hs.get ⟨j, hj⟩) (cells ++ [v])) vs (j + 1)
    else .error "IndexError: list index out of range"

/-- The `**` group branch: reset the row counter, enter the group, and
reset its data store (`data[group] = \x7b\x7d`). -/
def groupStep (st : PState) (first : String) : PState :=
  let g := strDrop first 2
  { st with row := 0, group := some g, data := setA st.data g [] }

/-- The `*` heading branch: strip the first character of every field,
extend (or start) the group's heading list, deduplicate, and make sure
every heading has a column (`setdefault`). -/
def headingStep (st : PState) (temp : List String) : Except String PState :=
  match st.group with
  | none => .error "Heading before GROUP"
  | some g =>
    let r := st.row + 1
    let cleaned := temp.map (fun s => strDrop s 1)
    match (if r = 1 then some cleaned
           else (st.headings.lookup g).map (fun hs => hs ++ cleaned)) with
    | none => .error "KeyError: headings"
    | some hs0 =>
      let hs := dedupPass hs0
      match st.data.lookup g with
      | none => .error "KeyError: data"
      | some gd =>
        let gd2 := hs.foldl (fun acc h => setdefaultA acc h []) gd
        .ok { st with row := r, headings := setA st.headings g hs,
                      data := setA st.data g gd2 }

/-- The `<CONT>` branch. -/
def contStep (st : PState) (rest : List String) : Except String PState :=
  match st.group with
  | none => .error "Continuation before GROUP"
  | some g =>
    match st.data.lookup g with
    | none => .error "KeyError: data"
    | some gd =>
      (contLoop (st.headings.lookup g) gd rest 1).map
        (fun gd2 => { st with data := setA st.data g gd2 })

/-- The data branch (also reached by `<UNIT>`/`<UNITS>` lines, which
`AGS4_to_dict` has no separate case for). -/
def dataStep (st : PState) (temp : List String) : Except String PState :=
  match st.group with
  | none => .error "Data before GROUP"
  | some g =>
    match st.headings.lookup g with
    | none => .error "KeyError: headings"
    | some hs =>
      match st.data.lookup g with
      | none => .error "KeyError: data"
      | some gd =>
        (dataLoop hs gd temp 0).map
          (fun gd2 => { st with data := setA st.data g gd2 })

/-- One line of the `AGS4_to_dict` loop. -/
def step (st : PState) (temp : List String) : Except String PState :=
  match temp with
  | [] => .ok st
  | first :: rest =>
    match classify first rest with
    | .group => .ok (groupStep st first)
    | .heading => headingStep st temp
    | .cont => contStep st rest
    | .blank => .ok st
    | .data => dataStep st temp

/-- `AGS4_to_dict` on a list of lexed lines: fold the line handler,
propagating the first raised exception. -/
def AGS4_to_dict (lines : List (List String)) :
    Except String (ParsedData × Headings) :=
  (lines.foldlM step initPState).map (fun st => (st.data, st.headings))

/-- One column of one group of a successful parse (`none` when the
parse failed or group/heading is absent). -/
def parsedColumn (lines : List (List String)) (g h : String) :
    Option (List String) :=
  match AGS4_to_dict lines with
  | .ok (d, _) => (d.lookup g).bind (fun gd => gd.lookup h)
  | .error _ => none

/-- A group survives `pd.DataFrame` construction exactly when all its
columns have the same length. -/
def sameLengths (gd : GroupData) : Bool :=
  match gd with
  | [] => true
  | (_, c) :: rest => rest.all (fun p => p.2.length = c.length)

/-- The reserved-word group renames of `AGS4_to_dataframe`. -/
def renameMap : List (String × String) :=
  [("?ETH", "WETH"), ("?ETH_TOP", "WETH_TOP"), ("?ETH_BASE", "WETH_BASE"),
   ("?ETH_GRAD", "WETH_GRAD"), ("?LEGD", "LEGD"), ("?HORN", "HORN")]

/-- Remove key `k`, returning its value and the remaining list
(Python `dict.pop`). -/
def popA {α : Type} : List (String × α) → String → Option α × List (String × α)
  | [], _ => (none, [])
  | (k2, v2) :: rest, k =>
    if k2 = k then (some v2, rest)
    else
      let p := popA rest k
      (p.1, (k2, v2) :: p.2)

/-- Apply one rename: `if old in df: df[new] = df.pop(old)`. -/
def renameOne {α : Type} (m : List (String × α)) (old new : String) :
    List (String × α) :=
  match popA m old with
  | (some v, rest) => setA rest new v
  | (none, _) => m

/-- The table-builder view of `AGS4_to_dataframe`: groups whose columns
are ragged fail `pd.DataFrame` and are dropped (the `ValueError` is
caught and only printed), then the reserved-word renames are applied.
Cell values stay raw strings; the source's best-effort numeric coercion
of rows 1.. refines cell types only and is not modelled. -/
def AGS4_to_dataframe (d : ParsedData) : ParsedData :=
  renameMap.foldl (fun acc p => renameOne acc p.1 p.2)
    (d.filter (fun p => sameLengths p.2))

/-- The AGS3 validation prepass of `AGSProcessor._parse_ags3_with_validation`
skips a line exactly when its first field is `<UNITS>` or `<CONT>`
(processor.py line 284). -/
def ags3PrepassSkips (first : String) : Bool :=
  first == "<UNITS>" || first == "<CONT>"

/-! ## Multi-file consolidator (`concat_ags_files`) -/

/-- The per-file tag `f"\x7bgiu_number\x7d_\x7bidx+1\x7d"` stamped on every
row of file number `idx` (0-based). -/
def per_file_giu (giu_number : String) (idx : Nat) : String :=
  giu_number ++ "_" ++ natStr (idx + 1)

/-- The composite id `GIU_NO + "_" + HOLE_ID` added to any group that
has a `HOLE_ID` column. -/
def giu_hole_id (giu_no hole_id : String) : String :=
  giu_no ++ "_" ++ hole_id

/-- The composite ids produced for the rows of one file in one
consolidation run. -/
def stamp_file_ids (giu_number : String) (idx : Nat)
    (hole_ids : List String) : List String :=
  hole_ids.map (fun h => giu_hole_id (per_file_giu giu_number idx) h)

/-! ## Depth-interval merger (`combine_ags_data`, per borehole) -/

/-- One interval row of the master table (the depth columns). -/
structure IntervalRow where
  depth_from : ℚ
  depth_to : ℚ
  thickness_m : ℚ
deriving DecidableEq

/-- The breakpoint sequence of one borehole: every numeric top/base
depth collected from the selected groups (`none` models NaN), with
duplicates removed and sorted ascending.  The source deduplicates with
`set()` before sorting and filters NaN between two sorts; sorting after
a NaN-filter and duplicate removal yields the same list. -/
def breakpoints_of (all_depths : List (Option ℚ)) : List ℚ :=
  List.insertionSort (fun a b => a ≤ b) (all_depths.filterMap id).dedup

/-- The interval rows of one borehole: consecutive breakpoint pairs
(`depth_from = depth[d]`, `depth_to = depth[d+1]`,
`THICKNESS_M = depth_to - depth_from`); fewer than 2 breakpoints
contribute nothing. -/
def interval_rows_of (all_depths : List (Option ℚ)) : List IntervalRow :=
  let depth := breakpoints_of all_depths
  if depth.length < 2 then []
  else (List.range (depth.length - 1)).map
    (fun d => ⟨depth.getD d 0, depth.getD (d + 1) 0,
               depth.getD (d + 1) 0 - depth.getD d 0⟩)

/-! ## Weathering / rockhead engine (`calculate_rockhead` and helpers) -/

/-- The weathering-grade numeric table of `weth_grade_to_numeric`. -/
def grade_map : List (String × ℚ) :=
  [("I", 1), ("II", 2), ("III", 3), ("IV", 4), ("V", 5), ("VI", 6),
   ("I/II", 3/2), ("II/I", 3/2), ("II/III", 5/2), ("III/II", 5/2),
   ("III/IV", 7/2), ("IV/III", 7/2), ("IV/V", 9/2), ("V/IV", 9/2),
   ("V/VI", 11/2), ("VI/V", 11/2)]

/-- `WETH_GRAD_NUM` for one grade label; `none` models the NaN left for
unmapped labels. -/
def weth_grade_to_numeric (g : String) : Option ℚ := grade_map.lookup g

/-- Substring test for `"NR"` (pandas `str.contains('NR')` with the
default regex engine: the pattern has no metacharacters). -/
def containsNR : List Char → Bool
  | c1 :: c2 :: rest => (c1 == 'N' && c2 == 'R') || containsNR (c2 :: rest)
  | _ => false

/-- Regex search for `'N.R.'` (pandas `str.contains('N.R.')`): a window
`N`, any non-newline, `R`, any non-newline. -/
def containsNdotR : List Char → Bool
  | c1 :: b :: c3 :: d :: rest =>
    (c1 == 'N' && b != '\n' && c3 == 'R' && d != '\n')
      || containsNdotR (b :: c3 :: d :: rest)
  | _ => false

/-- The `FI`-based no-recovery test of `rock_material_criteria`:
`FI.str.contains('NR') | FI.str.contains('N.R.')`. -/
def fi_no_recovery (s : String) : Bool :=
  containsNR s.data || containsNdotR s.data

/-- One row of the combined geological table consumed by
`calculate_rockhead`.  `tcr` is the `pd.to_numeric(..., errors='coerce')`
value (`none` = NaN); the flag columns default to the `False` the source
fills in when the column is absent. -/
structure GeoRow where
  hole_id : String
  depth_from : ℚ
  depth_to : ℚ
  weth_grad : String
  tcr : Option ℚ := none
  mod_weak : Bool := false
  weak : Bool := false
  nr : Bool := false
  fi : Option String := none
deriving DecidableEq

/-- The table, with the column-presence facts the source branches on. -/
structure GeoTable where
  rows : List GeoRow
  hasTCR : Bool
  hasFI : Bool

/-- `rock_mat` for one row: numeric grade at most 3 (NaN compares
false), grade not the `NI` sentinel, and, unless weak zones are
included, not flagged moderately weak or weak; never flagged
no-recovery (raw `NR` flag, or the `FI` text test when the table has an
`FI` column; a NaN `FI` contributes false via `na=False`). -/
def rock_material_criteria (hasFI : Bool) (include_weak_zones : Bool)
    (r : GeoRow) : Bool :=
  let nrv := r.nr || (hasFI && (match r.fi with
    | some s => fi_no_recovery s
    | none => false))
  let gradeOk := match weth_grade_to_numeric r.weth_grad with
    | some v => decide (v ≤ 3)
    | none => false
  if include_weak_zones then
    gradeOk && (r.weth_grad != "NI") && !nrv
  else
    gradeOk && (r.weth_grad != "NI") && !r.mod_weak && !r.weak && !nrv

/-- `rock_TCR` for one row: the rock-material predicate, gated by
`TCR >= tcr_threshold` when the table has a `TCR` column (a NaN TCR
compares false). -/
def rock_TCR (t : GeoTable) (tcr_threshold : ℚ) (include_weak : Bool)
    (r : GeoRow) : Bool :=
  rock_material_criteria t.hasFI include_weak r
    && (if t.hasTCR then
          (match r.tcr with
           | some v => decide (tcr_threshold ≤ v)
           | none => false)
        else true)

/-- A row reduced to what the run-length scan inspects. -/
structure SRow where
  d_from : ℚ
  d_to : ℚ
  ok : Bool
deriving DecidableEq

/-- The per-borehole run-length scan of `calculate_rockhead` (source
lines 96-109): while a row qualifies, extend the current run by
`depth_to - depth_from` (starting it at this row's `depth_from` if not
running) and stop at the first run whose accumulated length reaches
`continuous_length`; a failing row resets the run.  `none` is the
source's `'Not Found'` sentinel. -/
def rockheadScan (cl : ℚ) : List SRow → Option ℚ → ℚ → Option ℚ
  | [], _, _ => none
  | r :: rs, curStart, curLen =>
    if r.ok then
      match curStart with
      | none =>
        let l := r.d_to - r.d_from
        if cl ≤ l then some r.d_from else rockheadScan cl rs (some r.d_from) l
      | some s =>
        let l := curLen + (r.d_to - r.d_from)
        if cl ≤ l then some s else rockheadScan cl rs (some s) l
    else rockheadScan cl rs none 0

/-- Stable sort of a borehole's rows by `DEPTH_FROM`
(`sort_values('DEPTH_FROM')`). -/
def sort_by_depth (rows : List GeoRow) : List GeoRow :=
  List.insertionSort (fun a b => a.depth_from ≤ b.depth_from) rows

/-- First-appearance deduplication (pandas `Series.unique()`), with an
accumulator of the ids already seen. -/
def uniqueAux (seen : List String) : List String → List String
  | [] => []
  | x :: xs =>
    if seen.contains x then uniqueAux seen xs
    else x :: uniqueAux (x :: seen) xs

/-- The distinct values of a column in first-appearance order. -/
def uniqueFirst (l : List String) : List String := uniqueAux [] l

/-- `calculate_rockhead`: for each hole id in first-appearance order,
scan that hole's rows sorted by `DEPTH_FROM` with the recovery-gated
predicate; the result maps each hole to its rockhead depth or the
`'Not Found'` sentinel (`none`). -/
def calculate_rockhead (t : GeoTable) (tcr_threshold continuous_length : ℚ)
    (include_weak : Bool) : List (String × Option ℚ) :=
  let ids := uniqueFirst (t.rows.map (fun r => r.hole_id))
  ids.map (fun h =>
    let hole_rows := sort_by_depth (t.rows.filter (fun r => r.hole_id == h))
    let srows := hole_rows.map
      (fun r => SRow.mk r.depth_from r.depth_to
        (rock_TCR t tcr_threshold include_weak r))
    (h, rockheadScan continuous_length srows none 0))

/-- Total `depth_to - depth_from` length of a stretch of rows. -/
def runTotal (l : List SRow) : ℚ :=
  (l.map (fun r => r.d_to - r.d_from)).sum

/-- The maximal runs of consecutive qualifying rows, each as
(start depth, total accumulated length), in order of appearance.
Used to state the spec's description of the scan. -/
def runsOf : List SRow → List (ℚ × ℚ)
  | [] => []
  | r :: rs =>
    if r.ok then
      (r.d_from, (r.d_to - r.d_from) + runTotal (rs.takeWhile (fun x => x.ok)))
        :: runsOf (rs.dropWhile (fun x => x.ok))
    else runsOf rs
termination_by l => l.length
decreasing_by
  · exact Nat.lt_succ_of_le (List.Sublist.length_le (List.dropWhile_sublist _))
  · exact Nat.lt_succ_of_le (Nat.le_refl _)

/-- The spec's wording of the scan: the start of the first run of
consecutive qualifying rows whose accumulated length reaches the
configured minimum (`none` when no run qualifies). -/
def firstRunStart (cl : ℚ) (l : List SRow) : Option ℚ :=
  ((runsOf l).find? (fun p => decide (cl ≤ p.2))).map (fun p => p.1)

/-- The 10-row one-metre borehole of the spec's rockhead scenario:
grades `[V,IV,III,II,II,I,I,I,I,I]`, TCR `[40,60,80,85,90,95,95,95,95,95]`. -/
def scenarioRows : List GeoRow :=
  [⟨"BH1", 0, 1, "V", some 40, false, false, false, none⟩,
   ⟨"BH1", 1, 2, "IV", some 60, false, false, false, none⟩,
   ⟨"BH1", 2, 3, "III", some 80, false, false, false, none⟩,
   ⟨"BH1", 3, 4, "II", some 85, false, false, false, none⟩,
   ⟨"BH1", 4, 5, "II", some 90, false, false, false, none⟩,
   ⟨"BH1", 5, 6, "I", some 95, false, false, false, none⟩,
   ⟨"BH1", 6, 7, "I", some 95, false, false, false, none⟩,
   ⟨"BH1", 7, 8, "I", some 95, false, false, false, none⟩,
   ⟨"BH1", 8, 9, "I", some 95, false, false, false, none⟩,
   ⟨"BH1", 9, 10, "I", some 95, false, false, false, none⟩]

/-- The scenario table: it has a `TCR` column and no `FI` column. -/
def scenarioTable : GeoTable := ⟨scenarioRows, true, false⟩

/-- A two-row table whose qualifying rows are separated by an unlogged
7.5 m depth gap (rows cover 0-2.5 and 10-12.5 only). -/
def gapTable : GeoTable :=
  ⟨[⟨"BH1", 0, 5/2, "I", some 95, false, false, false, none⟩,
    ⟨"BH1", 10, 25/2, "I", some 95, false, false, false, none⟩],
   true, false⟩

/-! ## Q-value engine (`calculate_q_value` and friends) -/

/-- The single-value Q computation: `Jn`, `Ja`, `SRF` must be positive
and `RQD` in `[0, 100]`, otherwise a `ValueError` is raised (the
spec's ValidationError); the value is
`(RQD / Jn) * (Jr / Ja) * (Jw / SRF)`. -/
def calculate_q_value (rqd jn jr ja jw srf : ℚ) : Except String ℚ :=
  if jn ≤ 0 ∨ ja ≤ 0 ∨ srf ≤ 0 then
    .error "Jn, Ja, and SRF must be greater than 0"
  else if ¬ (0 ≤ rqd ∧ rqd ≤ 100) then
    .error "RQD must be between 0 and 100"
  else .ok ((rqd / jn) * (jr / ja) * (jw / srf))

/-- `interpret_q_value`: the nine classification bands. -/
def interpret_q_value (q : ℚ) : String :=
  if 400 ≤ q then "Exceptionally Good"
  else if 100 ≤ q then "Extremely Good"
  else if 40 ≤ q then "Very Good"
  else if 10 ≤ q then "Good"
  else if 4 ≤ q then "Fair"
  else if 1 ≤ q then "Poor"
  else if 1/10 ≤ q then "Very Poor"
  else if 1/100 ≤ q then "Extremely Poor"
  else "Exceptionally Poor"

/-- One row of the bulk Q table; `none` models a cell whose `float(...)`
conversion fails (NaN or non-numeric). -/
structure QRow where
  rqd : Option ℚ
  jn : Option ℚ
  jr : Option ℚ
  ja : Option ℚ
  jw : Option ℚ
  srf : Option ℚ
deriving DecidableEq

/-- The `Q_VALUE` computed for one row of `calculate_q_values_bulk`:
any conversion failure or `ValueError` from the single-value form is
caught and degrades to NaN (`none`). -/
def q_value_of_row (r : QRow) : Option ℚ :=
  match r.rqd, r.jn, r.jr, r.ja, r.jw, r.srf with
  | some rqd, some jn, some jr, some ja, some jw, some srf =>
    (calculate_q_value rqd jn jr ja jw srf).toOption
  | _, _, _, _, _, _ => none

/-- The `Q_VALUE` column of `calculate_q_values_bulk`: one entry per
input row, bad rows yielding NaN, never aborting the batch. -/
def calculate_q_values_bulk (rows : List QRow) : List (Option ℚ) :=
  rows.map q_value_of_row

/-! ## Processor state (`AGSProcessor.read_file`) -/

/-- A parsed group as a plain list of rows (the consolidated tables are
row-concatenated with `pd.concat(..., ignore_index=True)`). -/
abbrev PTable := List (List String)

/-- The mutable state of an `AGSProcessor`. -/
structure ProcState where
  tables : List (String × PTable)
  file_data : List (String × List (String × PTable))
  errors : List (String × List String)
  processed_files : List String

/-- Merge one file's groups into the consolidated tables: concatenate
onto an existing group's table, otherwise add the group. -/
def mergeTables (tables : List (String × PTable))
    (groups : List (String × PTable)) : List (String × PTable) :=
  groups.foldl
    (fun acc p =>
      match acc.lookup p.1 with
      | some old => setA acc p.1 (old ++ p.2)
      | none => setA acc p.1 p.2)
    tables

/-- `read_file` with the parser call abstracted into `outcome`: the
parsed groups plus accumulated warnings, or the exception the `except`
arm catches.  On failure the errors map gains the diagnostic under the
file-path key and nothing else changes; on success warnings are
recorded, the file is registered, and its groups are merged. -/
def read_file (st : ProcState) (filename filepathStr : String)
    (outcome : Except String (List (String × PTable) × List String)) :
    ProcState × List (String × PTable) :=
  match outcome with
  | .error e => ({ st with errors := setA st.errors filepathStr [e] }, [])
  | .ok (groups, warnings) =>
    let errs :=
      if warnings = [] then st.errors
      else
        match st.errors.lookup filename with
        | some old => setA st.errors filename (old ++ warnings)
        | none => setA st.errors filename warnings
    let pf :=
      if filename ∈ st.processed_files then st.processed_files
      else st.processed_files ++ [filename]
    ({ tables := mergeTables st.tables groups,
       file_data := setA st.file_data filename groups,
       errors := errs,
       processed_files := pf }, groups)

/-- `get_errors` returns the diagnostics map. -/
def get_errors (st : ProcState) : List (String × List String) := st.errors

/-! ## Helper lemmas -/

theorem setA_lookup_self {α : Type} (m : List (String × α)) (k : String) (v : α) :
    (setA m k v).lookup k = some v := by
  induction m with
  | nil => simp [setA, List.lookup]
  | cons p rest ih =>
    obtain ⟨k2, v2⟩ := p
    by_cases h : k2 = k
    · simp [setA, h, List.lookup]
    · simp only [setA, if_neg h, List.lookup]
      have : (k == k2) = false := by
        simp [beq_iff_eq]
        exact fun he => h he.symm
      simp [this, ih]

theorem setA_lookup_ne {α : Type} (m : List (String × α)) (k k2 : String)
    (v : α) (h : k ≠ k2) : (setA m k v).lookup k2 = m.lookup k2 := by
  have hbk : (k2 == k) = false := by
    simp [beq_iff_eq]
    exact Ne.symm h
  induction m with
  | nil => simp [setA, List.lookup, hbk]
  | cons p rest ih =>
    obtain ⟨k3, v3⟩ := p
    by_cases h3 : k3 = k
    · subst h3
      simp [setA, List.lookup, hbk]
    · simp only [setA, if_neg h3, List.lookup]
      cases hb : (k2 == k3) <;> simp [hb, ih]

theorem decDigitsAux_append (n : Nat) :
    ∀ acc, decDigitsAux n acc = decDigitsAux n [] ++ acc := by
  induction n using Nat.strong_induction_on with
  | _ n ih =>
    intro acc
    by_cases h : n < 10
    · conv_lhs => rw [decDigitsAux]
      conv_rhs => rw [decDigitsAux]
      simp [h]
    · conv_lhs => rw [decDigitsAux]
      conv_rhs => rw [decDigitsAux]
      simp only [h, dite_false]
      have hd : n / 10 < n := Nat.div_lt_self (by omega) (by omega)
      rw [ih _ hd (Nat.digitChar (n % 10) :: acc),
        ih _ hd (Nat.digitChar (n % 10) :: [])]
      simp

theorem decDigitsAux_base (n : Nat) (h : n < 10) :
    decDigitsAux n [] = [Nat.digitChar n] := by
  rw [decDigitsAux]
  simp [h]

theorem decDigitsAux_rec (n : Nat) (h : ¬ n < 10) :
    decDigitsAux n [] = decDigitsAux (n / 10) [] ++ [Nat.digitChar (n % 10)] := by
  conv_lhs => rw [decDigitsAux]
  simp only [h, dite_false]
  rw [decDigitsAux_append]

theorem decDigitsAux_isDigit (n : Nat) :
    ∀ c ∈ decDigitsAux n [], c.isDigit = true := by
  induction n using Nat.strong_induction_on with
  | _ n ih =>
    intro c hc
    have hdig : ∀ d < 10, (Nat.digitChar d).isDigit = true := by decide
    by_cases h : n < 10
    · rw [decDigitsAux_base n h] at hc
      simp at hc
      subst hc
      exact hdig n h
    · rw [decDigitsAux_rec n h] at hc
      have hd : n / 10 < n := Nat.div_lt_self (by omega) (by omega)
      rcases List.mem_append.mp hc with h1 | h1
      · exact ih _ hd c h1
      · simp at h1
        subst h1
        exact hdig _ (Nat.mod_lt n (by omega))

theorem digitsVal_decDigitsAux (n : Nat) : digitsVal (decDigitsAux n []) = n := by
  induction n using Nat.strong_induction_on with
  | _ n ih =>
    have hval : ∀ d < 10, (Nat.digitChar d).toNat - 48 = d := by decide
    by_cases h : n < 10
    · rw [decDigitsAux_base n h]
      simp [digitsVal, hval n h]
    · rw [decDigitsAux_rec n h]
      have hd : n / 10 < n := Nat.div_lt_self (by omega) (by omega)
      have := ih _ hd
      simp only [digitsVal] at this ⊢
      rw [List.foldl_append, this]
      simp [hval _ (Nat.mod_lt n (by omega))]
      omega

theorem natStr_inj {a b : Nat} (h : natStr a = natStr b) : a = b := by
  have hd : decDigitsAux a [] = decDigitsAux b [] := congrArg String.data h
  have := digitsVal_decDigitsAux a
  rw [hd, digitsVal_decDigitsAux] at this
  omega

theorem natStr_no_underscore (n : Nat) : ∀ c ∈ (natStr n).data, c ≠ '_' := by
  intro c hc he
  have := decDigitsAux_isDigit n c hc
  subst he
  simp [Char.isDigit] at this

theorem underscore_split :
    ∀ (a b x y : List Char), (∀ c ∈ a, c ≠ '_') → (∀ c ∈ b, c ≠ '_') →
      a ++ '_' :: x = b ++ '_' :: y → a = b ∧ x = y := by
  intro a
  induction a with
  | nil =>
    intro b x y _ hb he
    cases b with
    | nil => simpa using he
    | cons c bs =>
      simp at he
      exact absurd he.1.symm (hb c (by simp))
  | cons c as ih =>
    intro b x y ha hb he
    cases b with
    | nil =>
      simp at he
      exact absurd he.1 (ha c (by simp))
    | cons d bs =>
      simp at he
      obtain ⟨rfl, he2⟩ := he
      obtain ⟨h1, h2⟩ := ih bs x y (fun e hme => ha e (by simp [hme]))
        (fun e hme => hb e (by simp [hme])) he2
      exact ⟨by simp [h1], h2⟩

/-- The decimal renderings of two distinct naturals differ. -/
theorem natStr_data_inj {a b : Nat}
    (h : (natStr a).data = (natStr b).data) : a = b := by
  have hv := digitsVal_decDigitsAux a
  have hv2 := digitsVal_decDigitsAux b
  have hd : decDigitsAux a [] = decDigitsAux b [] := h
  rw [hd, hv2] at hv
  exact hv.symm

/-- Composite ids built from the same base id and two distinct file
ordinals are distinct, whatever the hole ids. -/
theorem giu_hole_id_ne (giu : String) (i j : Nat) (h1 h2 : String)
    (hij : i ≠ j) :
    giu_hole_id (per_file_giu giu i) h1 ≠ giu_hole_id (per_file_giu giu j) h2 := by
  intro he
  have hd := congrArg String.data he
  simp only [giu_hole_id, per_file_giu, String.data_append,
    show ("_" : String).data = ['_'] from rfl, List.append_assoc,
    List.singleton_append] at hd
  have hd2 := List.append_cancel_left hd
  injection hd2 with hd2a hd2b
  have hsp := underscore_split _ _ _ _ (natStr_no_underscore (i + 1))
    (natStr_no_underscore (j + 1)) hd2b
  have := natStr_data_inj hsp.1
  omega

/-! ## Claim theorems -/

/-- Claim C7: in a consolidation run, every row of the file with 0-based
ordinal `idx` receives the tag `base ++ "_" ++ (idx+1)` and, in groups
with a hole-id column, the composite id `tag ++ "_" ++ hole`; composite
ids coming from two distinct files never collide, even when the raw
hole ids are equal, and the two concrete first files with base ids "A"
and "B" containing hole "BH1" yield "A_1_BH1" and "B_1_BH1". -/
theorem claim_C7 :
    (∀ (giu : String) (i j : Nat) (h1 h2 : String), i ≠ j →
        giu_hole_id (per_file_giu giu i) h1 ≠ giu_hole_id (per_file_giu giu j) h2)
    ∧ (∀ (giu : String) (i j : Nat) (hs1 hs2 : List String) (c1 c2 : String),
        i ≠ j → c1 ∈ stamp_file_ids giu i hs1 → c2 ∈ stamp_file_ids giu j hs2 →
        c1 ≠ c2)
    ∧ giu_hole_id (per_file_giu "A" 0) "BH1" = "A_1_BH1"
    ∧ giu_hole_id (per_file_giu "B" 0) "BH1" = "B_1_BH1"
    ∧ ("A_1_BH1" : String) ≠ "B_1_BH1" := by
  have hnat1 : natStr 1 = "1" := by
    rw [natStr, decDigitsAux_base 1 (by omega)]
    decide
  refine ⟨giu_hole_id_ne, ?_, ?_, ?_, by decide⟩
  · intro giu i j hs1 hs2 c1 c2 hij hc1 hc2
    simp only [stamp_file_ids, List.mem_map] at hc1 hc2
    obtain ⟨a1, -, rfl⟩ := hc1
    obtain ⟨a2, -, rfl⟩ := hc2
    exact giu_hole_id_ne giu i j a1 a2 hij
  · rw [giu_hole_id, per_file_giu, hnat1]
    decide
  · rw [giu_hole_id, per_file_giu, hnat1]
    decide

/-- Witness for C7: the two files of one run with base id "G" give
distinct composite ids for the same hole "BH1". -/
theorem claim_C7_witness :
    giu_hole_id (per_file_giu "G" 0) "BH1" ≠ giu_hole_id (per_file_giu "G" 1) "BH1" :=
  claim_C7.1 "G" 0 1 "BH1" "BH1" (by decide)

/-- Claim C4: the single-value Q computation returns
`(RQD/Jn) * (Jr/Ja) * (Jw/SRF)` exactly when `Jn, Ja, SRF > 0` and
`0 ≤ RQD ≤ 100`, and raises exactly when one of those conditions fails;
concretely `(90,3,3,1,1,1)` gives `Q = 90` interpreted "Very Good",
while `RQD = 150` and `Jn = 0` both raise. -/
theorem claim_C4 :
    (∀ rqd jn jr ja jw srf q : ℚ,
        calculate_q_value rqd jn jr ja jw srf = Except.ok q ↔
          (0 < jn ∧ 0 < ja ∧ 0 < srf ∧ 0 ≤ rqd ∧ rqd ≤ 100 ∧
            q = (rqd / jn) * (jr / ja) * (jw / srf)))
    ∧ (∀ rqd jn jr ja jw srf : ℚ,
        isErr (calculate_q_value rqd jn jr ja jw srf) = true ↔
          (jn ≤ 0 ∨ ja ≤ 0 ∨ srf ≤ 0 ∨ rqd < 0 ∨ 100 < rqd))
    ∧ calculate_q_value 90 3 3 1 1 1 = Except.ok 90
    ∧ interpret_q_value 90 = "Very Good"
    ∧ isErr (calculate_q_value 150 3 3 1 1 1) = true
    ∧ isErr (calculate_q_value 90 0 3 1 1 1) = true := by
  refine ⟨?_, ?_, by norm_num [calculate_q_value],
    by norm_num [interpret_q_value],
    by norm_num [calculate_q_value, isErr],
    by norm_num [calculate_q_value, isErr]⟩
  · intro rqd jn jr ja jw srf q
    by_cases h1 : jn ≤ 0 ∨ ja ≤ 0 ∨ srf ≤ 0
    · unfold calculate_q_value
      rw [if_pos h1]
      apply iff_of_false
      · intro he
        exact Except.noConfusion he
      · rintro ⟨hjn, hja, hsrf, -, -, -⟩
        rcases h1 with h | h | h <;> linarith
    · by_cases h2 : 0 ≤ rqd ∧ rqd ≤ 100
      · unfold calculate_q_value
        rw [if_neg h1, if_neg (not_not_intro h2)]
        push_neg at h1
        constructor
        · intro he
          injection he with hv
          exact ⟨h1.1, h1.2.1, h1.2.2, h2.1, h2.2, hv.symm⟩
        · intro hp
          rw [hp.2.2.2.2.2]
      · unfold calculate_q_value
        rw [if_neg h1, if_pos h2]
        apply iff_of_false
        · intro he
          exact Except.noConfusion he
        · rintro ⟨-, -, -, hr1, hr2, -⟩
          exact h2 ⟨hr1, hr2⟩
  · intro rqd jn jr ja jw srf
    by_cases h1 : jn ≤ 0 ∨ ja ≤ 0 ∨ srf ≤ 0
    · unfold calculate_q_value
      rw [if_pos h1]
      refine iff_of_true rfl ?_
      rcases h1 with h | h | h
      · exact Or.inl h
      · exact Or.inr (Or.inl h)
      · exact Or.inr (Or.inr (Or.inl h))
    · by_cases h2 : 0 ≤ rqd ∧ rqd ≤ 100
      · unfold calculate_q_value
        rw [if_neg h1, if_neg (not_not_intro h2)]
        push_neg at h1
        refine iff_of_false Bool.false_ne_true ?_
        rintro (h | h | h | h | h)
        · linarith [h1.1]
        · linarith [h1.2.1]
        · linarith [h1.2.2]
        · linarith [h2.1]
        · linarith [h2.2]
      · unfold calculate_q_value
        rw [if_neg h1, if_pos h2]
        refine iff_of_true rfl ?_
        rcases lt_or_le rqd 0 with hr | hr
        · exact Or.inr (Or.inr (Or.inr (Or.inl hr)))
        · have h100 : 100 < rqd := by
            by_contra hc
            push_neg at hc
            exact h2 ⟨hr, hc⟩
          exact Or.inr (Or.inr (Or.inr (Or.inr h100)))

/-- Claim C6: the bulk Q computation returns one entry per row, a bad
row (here `Jn = 0`) degrading to a missing value while every other
row's Q-value is computed, and a single bad row never aborts the
batch. -/
theorem claim_C6 :
    (∀ (pre post : List QRow) (r : QRow), q_value_of_row r = none →
        calculate_q_values_bulk (pre ++ r :: post) =
          calculate_q_values_bulk pre ++ none :: calculate_q_values_bulk post)
    ∧ (∀ rows : List QRow,
        (calculate_q_values_bulk rows).length = rows.length)
    ∧ calculate_q_values_bulk
        [⟨some 90, some 3, some 3, some 1, some 1, some 1⟩,
         ⟨some 50, some 0, some 1, some 3, some 1, some 5⟩,
         ⟨some 50, some 9, some 1, some 3, some 1, some 5⟩] =
      [some 90, none, some (10 / 27)] := by
  refine ⟨?_, ?_,
    by norm_num [calculate_q_values_bulk, q_value_of_row, calculate_q_value,
      Except.toOption]⟩
  · intro pre post r hr
    simp [calculate_q_values_bulk, hr]
  · intro rows
    simp [calculate_q_values_bulk]

/-- A stretch of rows each covering a forward depth interval has
non-negative total length. -/
theorem runTotal_nonneg (l : List SRow)
    (h : ∀ r ∈ l, r.d_from ≤ r.d_to) : 0 ≤ runTotal l := by
  induction l with
  | nil => simp [runTotal]
  | cons r rs ih =>
    have hr := h r (List.mem_cons_self _ _)
    have := ih (fun x hx => h x (List.mem_cons_of_mem _ hx))
    simp only [runTotal, List.map_cons, List.sum_cons] at *
    have : (0 : ℚ) ≤ r.d_to - r.d_from := by linarith
    linarith

/-- The run-length scan of `calculate_rockhead`, started fresh, computes
the start of the first maximal qualifying run whose accumulated length
reaches the threshold; started mid-run (accumulated `acc < cl`, run
start `s`), it reports `s` if the current run still reaches the
threshold and otherwise restarts after the run.  Rows must cover
forward depth intervals. -/
theorem scan_spec_aux (cl : ℚ) :
    ∀ (n : Nat) (l : List SRow), l.length ≤ n →
      (∀ r ∈ l, r.d_from ≤ r.d_to) →
      (rockheadScan cl l none 0 = firstRunStart cl l ∧
       ∀ s acc, ¬ cl ≤ acc →
         rockheadScan cl l (some s) acc =
           if cl ≤ acc + runTotal (l.takeWhile (fun x => x.ok)) then some s
           else firstRunStart cl (l.dropWhile (fun x => x.ok))) := by
  intro n
  induction n with
  | zero =>
    intro l hl _
    have : l = [] := List.eq_nil_of_length_eq_zero (Nat.le_zero.mp hl)
    subst this
    refine ⟨by simp [rockheadScan, firstRunStart, runsOf], ?_⟩
    intro s acc hacc
    simp [rockheadScan, firstRunStart, runsOf, runTotal, hacc]
  | succ n ih =>
    intro l hl hnn
    cases l with
    | nil =>
      refine ⟨by simp [rockheadScan, firstRunStart, runsOf], ?_⟩
      intro s acc hacc
      simp [rockheadScan, firstRunStart, runsOf, runTotal, hacc]
    | cons r rs =>
      have hrs : rs.length ≤ n := by
        simpa using hl
      have hnn2 : ∀ x ∈ rs, x.d_from ≤ x.d_to :=
        fun x hx => hnn x (List.mem_cons_of_mem _ hx)
      obtain ⟨ihA, ihB⟩ := ih rs hrs hnn2
      have htw : 0 ≤ runTotal (rs.takeWhile (fun x => x.ok)) :=
        runTotal_nonneg _ (fun x hx =>
          hnn2 x ((List.takeWhile_sublist _).subset hx))
      cases hok : r.ok
      case false =>
        constructor
        · rw [rockheadScan]
          simp only [hok, Bool.false_eq_true, if_false]
          rw [ihA]
          rw [firstRunStart, firstRunStart, runsOf]
          simp [hok]
        · intro s acc hacc
          rw [rockheadScan]
          simp only [hok, Bool.false_eq_true, if_false]
          rw [ihA]
          rw [List.takeWhile_cons, List.dropWhile_cons]
          simp only [hok, Bool.false_eq_true, if_false]
          have hcond : ¬ cl ≤ acc + runTotal ([] : List SRow) := by
            simpa [runTotal] using hacc
          rw [if_neg hcond]
          rw [firstRunStart, firstRunStart, runsOf]
          simp [hok]
      case true =>
        have hlen : runTotal (List.takeWhile (fun x => x.ok) (r :: rs))
            = (r.d_to - r.d_from) + runTotal (rs.takeWhile (fun x => x.ok)) := by
          rw [List.takeWhile_cons]
          simp [hok, runTotal]
        have hdrop : List.dropWhile (fun x => x.ok) (r :: rs)
            = rs.dropWhile (fun x => x.ok) := by
          rw [List.dropWhile_cons]
          simp [hok]
        have hruns : runsOf (r :: rs) =
            (r.d_from, (r.d_to - r.d_from) + runTotal (rs.takeWhile (fun x => x.ok)))
              :: runsOf (rs.dropWhile (fun x => x.ok)) := by
          rw [runsOf]
          simp [hok]
        constructor
        · rw [rockheadScan]
          simp only [hok, if_true]
          by_cases hc : cl ≤ r.d_to - r.d_from
          · rw [if_pos hc]
            have hdec : decide (cl ≤ (r.d_to - r.d_from)
                + runTotal (rs.takeWhile (fun x => x.ok))) = true := by
              simp only [decide_eq_true_eq]
              linarith
            rw [firstRunStart, hruns]
            simp [List.find?, hdec]
          · rw [if_neg hc]
            rw [ihB r.d_from (r.d_to - r.d_from) hc]
            by_cases hc2 : cl ≤ (r.d_to - r.d_from)
                + runTotal (rs.takeWhile (fun x => x.ok))
            · rw [if_pos hc2]
              have hdec : decide (cl ≤ (r.d_to - r.d_from)
                  + runTotal (rs.takeWhile (fun x => x.ok))) = true := by
                simp only [decide_eq_true_eq]
                exact hc2
              conv_rhs => rw [firstRunStart, hruns]
              simp [List.find?, hdec]
            · rw [if_neg hc2]
              have hdec : decide (cl ≤ (r.d_to - r.d_from)
                  + runTotal (rs.takeWhile (fun x => x.ok))) = false := by
                simp only [decide_eq_false_iff_not]
                exact hc2
              conv_rhs => rw [firstRunStart, hruns]
              simp only [List.find?, hdec]
              rfl
        · intro s acc hacc
          rw [rockheadScan]
          simp only [hok, if_true]
          rw [hlen, hdrop]
          by_cases hc : cl ≤ acc + (r.d_to - r.d_from)
          · rw [if_pos hc]
            have hc2 : cl ≤ acc + ((r.d_to - r.d_from)
                + runTotal (rs.takeWhile (fun x => x.ok))) := by
              linarith
            rw [if_pos hc2]
          · rw [if_neg hc]
            rw [ihB s (acc + (r.d_to - r.d_from)) hc]
            have hiff : (cl ≤ acc + (r.d_to - r.d_from)
                  + runTotal (rs.takeWhile (fun x => x.ok)))
                ↔ (cl ≤ acc + ((r.d_to - r.d_from)
                  + runTotal (rs.takeWhile (fun x => x.ok)))) := by
              constructor <;> intro <;> linarith
            rw [if_congr hiff rfl rfl]

/-- The scan equals the spec's first-qualifying-run description for any
table whose rows cover forward depth intervals. -/
theorem rockheadScan_eq_firstRunStart (cl : ℚ) (l : List SRow)
    (h : ∀ r ∈ l, r.d_from ≤ r.d_to) :
    rockheadScan cl l none 0 = firstRunStart cl l :=
  (scan_spec_aux cl l.length l le_rfl h).1

/-- The breakpoint sequence is strictly ascending: it is sorted by the
insertion sort and duplicate-free because it permutes the `dedup`. -/
theorem breakpoints_sorted (ds : List (Option ℚ)) :
    (breakpoints_of ds).Sorted (· < ·) := by
  have hs : (breakpoints_of ds).Sorted (fun a b => a ≤ b) :=
    List.sorted_insertionSort _ _
  have hperm := List.perm_insertionSort (fun a b : ℚ => a ≤ b)
    (ds.filterMap id).dedup
  have hnd : (breakpoints_of ds).Nodup :=
    hperm.nodup_iff.mpr (List.nodup_dedup _)
  exact hs.lt_of_le hnd

/-- Strictness of the breakpoint sequence at positions. -/
theorem breakpoints_strict (ds : List (Option ℚ)) (i j : Nat)
    (hi : i < (breakpoints_of ds).length) (hj : j < (breakpoints_of ds).length)
    (hij : i < j) :
    (breakpoints_of ds).getD i 0 < (breakpoints_of ds).getD j 0 := by
  rw [List.getD_eq_getElem _ _ hi, List.getD_eq_getElem _ _ hj]
  exact (breakpoints_sorted ds).rel_get_of_lt hij

/-- The interval table of a borehole with at least 2 breakpoints, as a
map over breakpoint positions. -/
theorem interval_rows_of_eq (ds : List (Option ℚ))
    (h : ¬ (breakpoints_of ds).length < 2) :
    interval_rows_of ds = (List.range ((breakpoints_of ds).length - 1)).map
      (fun d => ⟨(breakpoints_of ds).getD d 0, (breakpoints_of ds).getD (d + 1) 0,
        (breakpoints_of ds).getD (d + 1) 0 - (breakpoints_of ds).getD d 0⟩) := by
  simp [interval_rows_of, h]

/-- Counterexample to C1 as stated: on the spec's own scenario the code
reports rockhead 3.0 (the first qualifying run starts at depth 3, where
grade II with TCR 85 meets the threshold), not the claimed 5.0. -/
theorem claim_C1_counterexample :
    calculate_rockhead scenarioTable 85 5 false = [("BH1", some 3)]
    ∧ calculate_rockhead scenarioTable 85 5 false ≠ [("BH1", some 5)] := by
  have h : calculate_rockhead scenarioTable 85 5 false = [("BH1", some 3)] := by
    norm_num +decide [calculate_rockhead, scenarioTable, scenarioRows,
      sort_by_depth, List.insertionSort, List.orderedInsert, rock_TCR,
      rock_material_criteria, weth_grade_to_numeric, grade_map, rockheadScan,
      uniqueFirst, uniqueAux, List.lookup, fi_no_recovery]
  refine ⟨h, ?_⟩
  rw [h]
  intro he
  simp at he

/-- Claim C1 (amended): on the scenario borehole the reported rockhead
is 3.0, and in general the scan reports the start of the first run of
consecutive rows satisfying the recovery-gated rock predicate whose
accumulated `depth_to - depth_from` length reaches the configured
minimum, with the `'Not Found'` sentinel (`none`) when no run
qualifies. -/
theorem claim_C1 :
    calculate_rockhead scenarioTable 85 5 false = [("BH1", some 3)]
    ∧ (∀ (cl : ℚ) (l : List SRow), (∀ r ∈ l, r.d_from ≤ r.d_to) →
        rockheadScan cl l none 0 = firstRunStart cl l) := by
  constructor
  · norm_num +decide [calculate_rockhead, scenarioTable, scenarioRows,
      sort_by_depth, List.insertionSort, List.orderedInsert, rock_TCR,
      rock_material_criteria, weth_grade_to_numeric, grade_map, rockheadScan,
      uniqueFirst, uniqueAux, List.lookup, fi_no_recovery]
  · intro cl l h
    exact rockheadScan_eq_firstRunStart cl l h

/-- Witness for C1: the general run characterization applied to a
single qualifying one-metre row with threshold 1. -/
theorem claim_C1_witness :
    rockheadScan 1 [SRow.mk 0 1 true] none 0 = firstRunStart 1 [SRow.mk 0 1 true] :=
  claim_C1.2 1 [SRow.mk 0 1 true] (by decide)

/-- Claim C10: the run-length scan never checks depth contiguity: a
table whose qualifying rows are separated by an unlogged gap still
accumulates them as one run, so when every row qualifies the reported
rockhead is the first row's `depth_from` as soon as the summed lengths
reach the minimum — no hypothesis relates one row's `depth_to` to the
next row's `depth_from`.  Concretely, two qualifying rows covering
0-2.5 and 10-12.5 (a 7.5 m unlogged gap) yield rockhead 0.0 with the
default 5 m minimum. -/
theorem claim_C10 :
    (∀ (cl : ℚ) (r0 : SRow) (l : List SRow),
        (∀ r ∈ r0 :: l, r.ok = true) →
        (∀ r ∈ r0 :: l, r.d_from ≤ r.d_to) →
        cl ≤ runTotal (r0 :: l) →
        rockheadScan cl (r0 :: l) none 0 = some r0.d_from)
    ∧ calculate_rockhead gapTable 85 5 false = [("BH1", some 0)] := by
  constructor
  · intro cl r0 l hok hnn hcl
    rw [rockheadScan_eq_firstRunStart cl _ hnn]
    have hok0 : r0.ok = true := hok r0 (List.mem_cons_self _ _)
    have hokl : ∀ r ∈ l, r.ok = true :=
      fun r hr => hok r (List.mem_cons_of_mem _ hr)
    have htake : l.takeWhile (fun x => x.ok) = l :=
      List.takeWhile_eq_self_iff.mpr hokl
    have hdrop : l.dropWhile (fun x => x.ok) = [] :=
      List.dropWhile_eq_nil_iff.mpr hokl
    rw [firstRunStart, runsOf]
    simp only [hok0, if_true, htake, hdrop]
    have htot : runTotal (r0 :: l) = (r0.d_to - r0.d_from) + runTotal l := by
      simp [runTotal]
    have hdec : decide (cl ≤ (r0.d_to - r0.d_from) + runTotal l) = true := by
      simp only [decide_eq_true_eq]
      rw [htot] at hcl
      exact hcl
    simp [List.find?, hdec]
  · norm_num +decide [calculate_rockhead, gapTable, sort_by_depth,
      List.insertionSort, List.orderedInsert, rock_TCR,
      rock_material_criteria, weth_grade_to_numeric, grade_map, rockheadScan,
      uniqueFirst, uniqueAux, List.lookup, fi_no_recovery]

/-- Witness for C10: two qualifying rows separated by a depth gap are
accumulated as one run and the scan reports the first row's start. -/
theorem claim_C10_witness :
    rockheadScan 2 [SRow.mk 0 1 true, SRow.mk 10 11 true] none 0 = some 0 :=
  claim_C10.1 2 (SRow.mk 0 1 true) [SRow.mk 10 11 true] (by decide) (by decide)
    (by norm_num [runTotal])

/-- Claim C5: for every borehole's collected depth values, the interval
rows derived from the deduplicated ascending breakpoint sequence are
strictly contiguous and non-overlapping (each row's `depth_to` equals
the next row's `depth_from`, each thickness is
`depth_to - depth_from`, and each row has `depth_from < depth_to`),
and a borehole with fewer than 2 numeric breakpoints contributes no
interval rows. -/
theorem claim_C5 :
    ∀ ds : List (Option ℚ),
      (∀ (i : Nat) (h2 : i + 1 < (interval_rows_of ds).length),
          ((interval_rows_of ds).get ⟨i, by omega⟩).depth_to =
            ((interval_rows_of ds).get ⟨i + 1, h2⟩).depth_from)
      ∧ (∀ r ∈ interval_rows_of ds,
          r.thickness_m = r.depth_to - r.depth_from ∧ r.depth_from < r.depth_to)
      ∧ ((breakpoints_of ds).length < 2 → interval_rows_of ds = []) := by
  intro ds
  by_cases hlen : (breakpoints_of ds).length < 2
  · have hnil : interval_rows_of ds = [] := by
      simp [interval_rows_of, hlen]
    refine ⟨?_, ?_, fun _ => hnil⟩
    · intro i h2
      rw [hnil] at h2
      simp at h2
    · intro r hr
      rw [hnil] at hr
      simp at hr
  · have heq := interval_rows_of_eq ds hlen
    refine ⟨?_, ?_, fun hcon => absurd hcon hlen⟩
    · intro i h2
      simp only [List.get_eq_getElem, heq, List.getElem_map, List.getElem_range]
    · intro r hr
      rw [heq] at hr
      simp only [List.mem_map, List.mem_range] at hr
      obtain ⟨d, hd, rfl⟩ := hr
      refine ⟨rfl, ?_⟩
      exact breakpoints_strict ds d (d + 1) (by omega) (by omega) (by omega)

/-- Witness for C5: a borehole with a single NaN depth has fewer than 2
breakpoints and contributes no interval rows. -/
theorem claim_C5_witness :
    (breakpoints_of [(none : Option ℚ)]).length < 2 ∧
      interval_rows_of [(none : Option ℚ)] = [] :=
  ⟨by simp [breakpoints_of], (claim_C5 [none]).2.2 (by simp [breakpoints_of])⟩

/-- Witness for C6: a two-row batch with a bad second row (`Jn = 0`)
splits as the theorem states. -/
theorem claim_C6_witness :
    q_value_of_row ⟨some 50, some 0, some 1, some 3, some 1, some 5⟩ = none ∧
    calculate_q_values_bulk
        ([⟨some 90, some 3, some 3, some 1, some 1, some 1⟩] ++
          (⟨some 50, some 0, some 1, some 3, some 1, some 5⟩ : QRow) :: []) =
      calculate_q_values_bulk [⟨some 90, some 3, some 3, some 1, some 1, some 1⟩]
        ++ none :: calculate_q_values_bulk [] :=
  ⟨by decide, claim_C6.1 _ _ _ (by decide)⟩

/-- Claim C3: parsing `**HOLE` / `*HOLE_ID,*REMARKS` / `"BH1","abc"` /
`<CONT>,"def"` yields REMARKS value "abcdef" (continuation values are
string-concatenated onto the current row, not overwritten); a `<CONT>`
line with at least one value raises when every column of the group is
still empty (no preceding data row to extend), and raises when it
supplies more values than there are positions after the first heading. -/
theorem claim_C3 :
    parsedColumn [["**HOLE"], ["*HOLE_ID", "*REMARKS"], ["BH1", "abc"],
        ["<CONT>", "def"]] "HOLE" "REMARKS" = some ["abcdef"]
    ∧ (∀ (hs : List String) (gd : GroupData) (v : String) (vs : List String),
        (∀ p ∈ gd, p.2 = ([] : List String)) →
        ∃ e, contLoop (some hs) gd (v :: vs) 1 = Except.error e)
    ∧ (∀ (hs : List String) (gd : GroupData) (vals : List String) (j : Nat),
        hs.length < j + vals.length → vals ≠ [] →
        ∃ e, contLoop (some hs) gd vals j = Except.error e) := by
  refine ⟨by decide, ?_, ?_⟩
  · intro hs gd v vs hempty
    have hlook : ∀ h : String, gd.lookup h = none ∨ gd.lookup h = some [] := by
      intro h
      induction gd with
      | nil => exact Or.inl rfl
      | cons p rest ih =>
        obtain ⟨k, cells⟩ := p
        have hc : cells = [] := hempty (k, cells) (List.mem_cons_self _ _)
        subst hc
        rw [List.lookup]
        cases hb : (h == k)
        · exact ih (fun q hq => hempty q (List.mem_cons_of_mem _ hq))
        · exact Or.inr rfl
    rw [contLoop]
    by_cases hj : 1 < hs.length
    · rw [dif_pos hj]
      rcases hlook (hs.get ⟨1, hj⟩) with hnone | hnil
      · rw [hnone]
        exact ⟨_, rfl⟩
      · rw [hnil]
        exact ⟨_, rfl⟩
    · rw [dif_neg hj]
      exact ⟨_, rfl⟩
  · intro hs gd vals
    induction vals generalizing gd with
    | nil =>
      intro j _ hne
      exact absurd rfl hne
    | cons v vs ih =>
      intro j hlen _
      rw [contLoop]
      by_cases hj : j < hs.length
      · rw [dif_pos hj]
        cases hlook : gd.lookup (hs.get ⟨j, hj⟩) with
        | none => exact ⟨_, rfl⟩
        | some cells =>
          cases cells with
          | nil => exact ⟨_, rfl⟩
          | cons c cs =>
            cases vs with
            | nil =>
              simp at hlen
              omega
            | cons w ws =>
              refine ih _ (j + 1) ?_ (by simp)
              simp at hlen ⊢
              omega
      · rw [dif_neg hj]
        exact ⟨_, rfl⟩

/-- Witness for C3: the continuation failure cases at concrete inputs:
a `<CONT>` with no preceding data row, and one with more values than
remaining headings. -/
theorem claim_C3_witness :
    (∃ e, contLoop (some ["HOLE_ID", "REMARKS"]) [("HOLE_ID", []), ("REMARKS", [])]
        ["def"] 1 = Except.error e)
    ∧ (∃ e, contLoop (some ["HOLE_ID", "REMARKS"])
        [("HOLE_ID", ["BH1"]), ("REMARKS", ["abc"])] ["x", "y"] 1 = Except.error e) :=
  ⟨claim_C3.2.1 ["HOLE_ID", "REMARKS"] [("HOLE_ID", []), ("REMARKS", [])] "def" []
      (by decide),
   claim_C3.2.2 ["HOLE_ID", "REMARKS"] [("HOLE_ID", ["BH1"]), ("REMARKS", ["abc"])]
      ["x", "y"] 1 (by decide) (by decide)⟩

/-- Counterexample to C8 as stated: `AGS4_to_dict` has no `<UNIT>`/
`<UNITS>` branch, so such a line is consumed as a data row — here the
`<UNITS>` cell itself lands in the HOLE_ID column instead of the group
receiving no values. -/
theorem claim_C8_counterexample :
    parsedColumn [["**HOLE"], ["*HOLE_ID", "*REMARKS"], ["<UNITS>", "m"]]
        "HOLE" "HOLE_ID" = some ["<UNITS>"]
    ∧ parsedColumn [["**HOLE"], ["*HOLE_ID", "*REMARKS"], ["<UNITS>", "m"]]
        "HOLE" "HOLE_ID" ≠ some [] := by
  refine ⟨by decide, ?_⟩
  intro he
  rw [show parsedColumn [["**HOLE"], ["*HOLE_ID", "*REMARKS"], ["<UNITS>", "m"]]
      "HOLE" "HOLE_ID" = some ["<UNITS>"] from by decide] at he
  simp at he

/-- Claim C8 (amended): in the legacy AGS4 parser a line whose first
field is `<UNIT>` or `<UNITS>` is dispatched to the data branch (its
values are appended to the group's columns like any data row); only the
AGS3 validation prepass of the processor skips `<UNITS>` lines. -/
theorem claim_C8 :
    (∀ (st : PState) (rest : List String),
        step st ("<UNITS>" :: rest) = dataStep st ("<UNITS>" :: rest))
    ∧ (∀ (st : PState) (rest : List String),
        step st ("<UNIT>" :: rest) = dataStep st ("<UNIT>" :: rest))
    ∧ ags3PrepassSkips "<UNITS>" = true
    ∧ ags3PrepassSkips "<UNIT>" = false
    ∧ parsedColumn [["**HOLE"], ["*HOLE_ID", "*REMARKS"], ["<UNITS>", "m"]]
        "HOLE" "REMARKS" = some ["m"] :=
  ⟨fun _ _ => rfl, fun _ _ => rfl, by decide, by decide, by decide⟩

/-- `getD` of a duplicate-free heading list is injective inside the
bounds. -/
theorem nodup_getD_ne (hs : List String) (hnd : hs.Nodup) (i j : Nat)
    (hi : i < hs.length) (hj : j < hs.length) (hij : i ≠ j) :
    hs.getD i "" ≠ hs.getD j "" := by
  rw [List.getD_eq_getElem _ _ hi, List.getD_eq_getElem _ _ hj]
  intro he
  exact hij (List.Nodup.getElem_inj_iff hnd |>.mp he)

/-- Counterexample to C2 as stated: a data row with fewer fields than
headings is not padded — the trailing REMARKS column receives no value
at all rather than an empty-string sentinel. -/
theorem claim_C2_counterexample :
    parsedColumn [["**HOLE"], ["*HOLE_ID", "*REMARKS"], ["BH1"]]
        "HOLE" "REMARKS" = some []
    ∧ parsedColumn [["**HOLE"], ["*HOLE_ID", "*REMARKS"], ["BH1"]]
        "HOLE" "REMARKS" ≠ some [""] := by
  refine ⟨by decide, ?_⟩
  intro he
  rw [show parsedColumn [["**HOLE"], ["*HOLE_ID", "*REMARKS"], ["BH1"]]
      "HOLE" "REMARKS" = some [] from by decide] at he
  simp at he

/-- Claim C2 (amended): a data row with fewer fields than the headings
never raises: the loop appends each supplied field to the column at its
position and leaves every trailing heading's column untouched (no
padding with an empty-value sentinel); and a group whose columns end up
ragged is dropped by the dataframe view without raising (the
`ValueError` is caught and only printed). -/
theorem claim_C2 :
    (∀ (hs : List String) (gd : GroupData) (vals : List String) (j : Nat),
        hs.Nodup →
        j + vals.length ≤ hs.length →
        (∀ i, j ≤ i → i < j + vals.length →
          (gd.lookup (hs.getD i "")).isSome = true) →
        ∃ gd2, dataLoop hs gd vals j = Except.ok gd2
          ∧ (∀ i, i < hs.length → (i < j ∨ j + vals.length ≤ i) →
              gd2.lookup (hs.getD i "") = gd.lookup (hs.getD i ""))
          ∧ (∀ i, j ≤ i → i < j + vals.length →
              gd2.lookup (hs.getD i "") =
                (gd.lookup (hs.getD i "")).map
                  (fun cs => cs ++ [vals.getD (i - j) ""])))
    ∧ AGS4_to_dataframe [("HOLE", [("HOLE_ID", ["BH1"]), ("REMARKS", [])])] = [] := by
  refine ⟨?_, by decide⟩
  intro hs gd vals
  induction vals generalizing gd with
  | nil =>
    intro j hnd _ _
    exact ⟨gd, rfl, fun i _ _ => rfl,
      fun i h1 h2 => absurd h2 (by simp only [List.length_nil]; omega)⟩
  | cons v vs ih =>
    intro j hnd hlen hpres
    simp only [List.length_cons] at hlen
    have hj : j < hs.length := by omega
    rw [dataLoop, dif_pos hj]
    have hgetj : hs.get ⟨j, hj⟩ = hs.getD j "" :=
      (List.getD_eq_getElem _ _ hj).symm
    have hsome := hpres j le_rfl (by simp only [List.length_cons]; omega)
    cases hlook : gd.lookup (hs.get ⟨j, hj⟩) with
    | none =>
      rw [hgetj] at hlook
      rw [hlook] at hsome
      simp at hsome
    | some cells =>
      obtain ⟨gd2, hok, hout, hin⟩ :=
        ih (setA gd (hs.get ⟨j, hj⟩) (cells ++ [v])) (j + 1) hnd
          (by omega)
          (by
            intro i hi1 hi2
            have hine : hs.getD i "" ≠ hs.getD j "" :=
              nodup_getD_ne hs hnd i j (by omega) hj (by omega)
            rw [hgetj, setA_lookup_ne _ _ _ _ (Ne.symm hine)]
            exact hpres i (by omega)
              (by simp only [List.length_cons]; omega))
      refine ⟨gd2, hok, ?_, ?_⟩
      · intro i hi hrange
        simp only [List.length_cons] at hrange
        have hine : hs.getD i "" ≠ hs.getD j "" :=
          nodup_getD_ne hs hnd i j hi hj (by omega)
        rw [hout i hi (by omega)]
        rw [hgetj, setA_lookup_ne _ _ _ _ (Ne.symm hine)]
      · intro i hi1 hi2
        simp only [List.length_cons] at hi2
        by_cases hij : i = j
        · subst hij
          rw [hout i (by omega) (by omega)]
          rw [hgetj, setA_lookup_self]
          rw [hgetj] at hlook
          rw [hlook]
          simp
        · have hine : hs.getD i "" ≠ hs.getD j "" :=
            nodup_getD_ne hs hnd i j (by omega) hj hij
          have hstep : i - j = (i - (j + 1)) + 1 := by omega
          rw [hin i (by omega) (by omega)]
          rw [hgetj, setA_lookup_ne _ _ _ _ (Ne.symm hine)]
          rw [hstep]
          simp

/-- Witness for C2: a two-field heading list with a one-field data row
succeeds and leaves the second column untouched. -/
theorem claim_C2_witness :
    ∃ gd2, dataLoop ["A", "B"] [("A", []), ("B", [])] ["x"] 0 = Except.ok gd2
      ∧ (∀ i, i < (["A", "B"] : List String).length → (i < 0 ∨ 0 + (["x"] : List String).length ≤ i) →
          gd2.lookup ((["A", "B"] : List String).getD i "") =
            ([("A", []), ("B", [])] : GroupData).lookup ((["A", "B"] : List String).getD i ""))
      ∧ (∀ i, 0 ≤ i → i < 0 + (["x"] : List String).length →
          gd2.lookup ((["A", "B"] : List String).getD i "") =
            (([("A", []), ("B", [])] : GroupData).lookup ((["A", "B"] : List String).getD i "")).map
              (fun cs => cs ++ [(["x"] : List String).getD (i - 0) ""])) :=
  claim_C2.1 ["A", "B"] [("A", []), ("B", [])] ["x"] 0 (by decide) (by decide)
    (fun i _ h2 => by
      have hi0 : i = 0 := by
        simp only [List.length_cons, List.length_nil] at h2
        omega
      subst hi0
      decide)

/-- Claim C9: `read_file` is atomic per file: when the parse fails the
consolidated tables (and the processed-file list) are exactly
unchanged, the diagnostic is recorded under the file's key and
retrievable through `get_errors`, and no rows are returned; when the
parse succeeds the file's groups are merged into the tables. -/
theorem claim_C9 :
    (∀ (st : ProcState) (fn fp e : String),
        (read_file st fn fp (Except.error e)).1.tables = st.tables
        ∧ (read_file st fn fp (Except.error e)).1.processed_files =
            st.processed_files
        ∧ (get_errors (read_file st fn fp (Except.error e)).1).lookup fp = some [e]
        ∧ (read_file st fn fp (Except.error e)).2 = [])
    ∧ (∀ (st : ProcState) (fn fp : String) (groups : List (String × PTable)),
        (read_file st fn fp (Except.ok (groups, []))).1.tables =
          mergeTables st.tables groups
        ∧ (read_file st fn fp (Except.ok (groups, []))).2 = groups) := by
  constructor
  · intro st fn fp e
    refine ⟨rfl, rfl, ?_, rfl⟩
    simp only [read_file, get_errors]
    exact setA_lookup_self _ _ _
  · intro st fn fp groups
    exact ⟨rfl, rfl⟩

end AGSProc
